import Mathlib

/-!
Verification of the audio-splitter core (src/audio-splitter.py) against its
natural-language specification.

The Python source is shallowly embedded below:

* `total_chunks`, `start_time`, `end_time`, `chunkWindows` embed the chunk
  computation of `split_audio_thread` (lines 427-428 and 444-445): millisecond
  durations are natural numbers, `int(a / b)` on non-negative ints is natural
  division, `len(audio) % chunk_duration_ms` is natural mod.
* `pad2` / `output_filename` embed the f-string
  `f"{input_filename}_part{i+1:02d}.mp3"` (line 450).
* `Event`, `run_chunks`, `split_audio_thread` embed the worker thread
  (lines 406-477): each `self.progress_queue.put` becomes an element of the
  produced event list, and the files written by `chunk.export` become the
  produced file list (file name paired with the `preserve_quality` flag that
  decides the 320k bitrate).  External effects whose success is decided by
  the environment (makedirs, pydub decode, per-chunk export, the cancellation
  flag read per iteration, the per-chunk read of the `preserve_quality`
  Tkinter variable) are fields of `JobEnv`.
* `validate_inputs` / `start_splitting` embed lines 370-404.
* `on_input_file_change` (lines 301-368) is embedded as a function from the
  probe environment to the observable outcome, tracking whether the temporary
  decoded artifact `temp/temp_audio.wav` still exists when the handler
  returns.
-/

/-- One message put on `self.progress_queue`: `("progress", pct, msg)`,
`("success", msg)` or `("error", msg)`.  Percentages are rationals, embedding
the Python float arithmetic `20 + (i / total_chunks) * 70` exactly (all the
percent computations of the source are exact in ℚ and small enough that the
float rounding is the identity). -/
inductive Event where
  | progress (percent : ℚ) (msg : String)
  | success (msg : String)
  | error (msg : String)
deriving DecidableEq

/-- Progress messages, the `("progress", _, _)` tuples. -/
def Event.isProgress : Event → Bool
  | .progress _ _ => true
  | _ => false

/-- Terminal messages: `("success", _)` or `("error", _)`. -/
def Event.isTerminal : Event → Bool
  | .progress _ _ => false
  | _ => true

/-- The percents of the progress events of a trace, in order. -/
def eventPercents (evs : List Event) : List ℚ :=
  evs.filterMap fun e =>
    match e with
    | .progress p _ => some p
    | _ => none

/-- Line 428: `total_chunks = int(len(audio) / chunk_duration_ms)
+ (1 if len(audio) % chunk_duration_ms > 0 else 0)`. -/
def total_chunks (lenMs chunkMs : Nat) : Nat :=
  lenMs / chunkMs + (if lenMs % chunkMs > 0 then 1 else 0)

/-- Line 444: `start_time = i * chunk_duration_ms`. -/
def start_time (i chunkMs : Nat) : Nat := i * chunkMs

/-- Line 445: `end_time = min((i + 1) * chunk_duration_ms, len(audio))`. -/
def end_time (i chunkMs lenMs : Nat) : Nat := min ((i + 1) * chunkMs) lenMs

/-- The ordered list of `[start_time, end_time)` windows the loop at
line 438 slices the audio into. -/
def chunkWindows (lenMs chunkMs : Nat) : List (Nat × Nat) :=
  (List.range (total_chunks lenMs chunkMs)).map fun i =>
    (start_time i chunkMs, end_time i chunkMs lenMs)

/-- Python `f"{n:02d}"` for non-negative `n`: decimal digits left-padded
with `0` to width two. -/
def pad2 (n : Nat) : String := if n < 10 then "0" ++ toString n else toString n

/-- Line 450: `output_filename = f"{input_filename}_part{i+1:02d}.mp3"`
(`i` is the 0-based chunk index). -/
def output_filename (stem : String) (i : Nat) : String :=
  stem ++ "_part" ++ pad2 (i + 1) ++ ".mp3"

theorem total_chunks_eq_ceil (lenMs chunkMs : Nat) (hc : 0 < chunkMs) :
    total_chunks lenMs chunkMs = (lenMs + chunkMs - 1) / chunkMs := by
  have h1 : lenMs + chunkMs - 1 = lenMs + (chunkMs - 1) := by omega
  rw [total_chunks, h1, Nat.add_div hc,
    Nat.div_eq_of_lt (show chunkMs - 1 < chunkMs by omega),
    Nat.mod_eq_of_lt (show chunkMs - 1 < chunkMs by omega)]
  rcases Nat.eq_zero_or_pos (lenMs % chunkMs) with h | h
  · rw [h, if_neg (by omega), if_neg (by omega)]
  · rw [if_pos h, if_pos (by omega)]

theorem start_time_lt_len (lenMs chunkMs : Nat) (hc : 0 < chunkMs) :
    ∀ j, j < total_chunks lenMs chunkMs → j * chunkMs < lenMs := by
  intro j hj
  have hdm := Nat.div_add_mod lenMs chunkMs
  unfold total_chunks at hj
  by_cases h : lenMs % chunkMs = 0
  · rw [h] at hj
    simp only [Nat.lt_irrefl, if_false] at hj
    have h2 : (j + 1) * chunkMs ≤ (lenMs / chunkMs) * chunkMs :=
      Nat.mul_le_mul_right chunkMs (by omega)
    have h3 : (lenMs / chunkMs) * chunkMs = chunkMs * (lenMs / chunkMs) :=
      Nat.mul_comm _ _
    have h4 : (j + 1) * chunkMs = j * chunkMs + chunkMs := Nat.succ_mul j chunkMs
    omega
  · have hpos : 0 < lenMs % chunkMs := Nat.pos_of_ne_zero h
    rw [if_pos hpos] at hj
    have h2 : j * chunkMs ≤ (lenMs / chunkMs) * chunkMs :=
      Nat.mul_le_mul_right chunkMs (by omega)
    have h3 : (lenMs / chunkMs) * chunkMs = chunkMs * (lenMs / chunkMs) :=
      Nat.mul_comm _ _
    omega

theorem len_le_total_chunks_mul (lenMs chunkMs : Nat) (hc : 0 < chunkMs) :
    lenMs ≤ total_chunks lenMs chunkMs * chunkMs := by
  unfold total_chunks
  rcases Nat.eq_zero_or_pos (lenMs % chunkMs) with h | h
  · rw [h, if_neg (by omega), Nat.add_zero,
      Nat.div_mul_cancel (Nat.dvd_of_mod_eq_zero h)]
  · rw [if_pos h]
    calc lenMs = chunkMs * (lenMs / chunkMs) + lenMs % chunkMs :=
          (Nat.div_add_mod _ _).symm
      _ ≤ chunkMs * (lenMs / chunkMs) + chunkMs :=
          Nat.add_le_add_left (Nat.le_of_lt (Nat.mod_lt lenMs hc)) _
      _ = (lenMs / chunkMs + 1) * chunkMs := by ring

theorem total_chunks_pos (lenMs chunkMs : Nat) (hl : 0 < lenMs) (hc : 0 < chunkMs) :
    0 < total_chunks lenMs chunkMs := by
  unfold total_chunks
  rcases le_or_lt chunkMs lenMs with h | h
  · have h2 : 0 < lenMs / chunkMs := Nat.div_pos h hc
    exact Nat.lt_of_lt_of_le h2 (Nat.le_add_right _ _)
  · have h2 : lenMs % chunkMs = lenMs := Nat.mod_eq_of_lt h
    rw [h2, if_pos hl]
    exact Nat.succ_pos _

/-- Claim C1: for every total duration > 0 and chunk length > 0, the windows
computed by the split loop are exactly `ceil(totalDuration / chunkLength)`
many, contiguous (each window's end is the next window's start), pairwise
non-overlapping, non-empty and within bounds, the first starts at 0 and the
last ends exactly at the total duration (truncated, never overshooting). -/
theorem chunk_plan_partition (lenMs chunkMs : Nat) (hl : 0 < lenMs) (hc : 0 < chunkMs) :
    (chunkWindows lenMs chunkMs).length = (lenMs + chunkMs - 1) / chunkMs ∧
    (chunkWindows lenMs chunkMs).Chain' (fun a b => a.2 = b.1) ∧
    (chunkWindows lenMs chunkMs).Pairwise (fun a b => a.2 ≤ b.1) ∧
    (∀ w ∈ chunkWindows lenMs chunkMs, w.1 < w.2 ∧ w.2 ≤ lenMs) ∧
    ((chunkWindows lenMs chunkMs).map Prod.fst).head? = some 0 ∧
    ((chunkWindows lenMs chunkMs).map Prod.snd).getLast? = some lenMs := by
  have htot : 0 < total_chunks lenMs chunkMs := total_chunks_pos lenMs chunkMs hl hc
  obtain ⟨m, hm⟩ : ∃ m, total_chunks lenMs chunkMs = m + 1 :=
    ⟨total_chunks lenMs chunkMs - 1, by omega⟩
  refine ⟨?_, ?_, ?_, ?_, ?_, ?_⟩
  · rw [chunkWindows, List.length_map, List.length_range,
      total_chunks_eq_ceil lenMs chunkMs hc]
  · rw [chunkWindows, List.chain'_map, hm, List.chain'_range_succ]
    intro i hi
    have hle : (i + 1) * chunkMs < lenMs := by
      apply start_time_lt_len lenMs chunkMs hc
      omega
    simp only [end_time, start_time, Nat.succ_eq_add_one]
    exact Nat.min_eq_left (Nat.le_of_lt hle)
  · rw [chunkWindows]
    refine List.Pairwise.map _ ?_ (List.pairwise_lt_range _)
    intro i j hij
    simp only [end_time, start_time]
    have : (i + 1) * chunkMs ≤ j * chunkMs := Nat.mul_le_mul_right chunkMs (by omega)
    omega
  · intro w hw
    rw [chunkWindows, List.mem_map] at hw
    obtain ⟨i, hi, rfl⟩ := hw
    rw [List.mem_range] at hi
    have h1 : i * chunkMs < lenMs := start_time_lt_len lenMs chunkMs hc i hi
    simp only [start_time, end_time]
    constructor
    · have h2 : (i + 1) * chunkMs = i * chunkMs + chunkMs := by ring
      omega
    · exact Nat.min_le_right _ _
  · rw [chunkWindows, hm, List.range_succ_eq_map]
    simp [start_time]
  · rw [chunkWindows, hm, List.range_succ]
    have hend : end_time m chunkMs lenMs = lenMs := by
      have h1 : lenMs ≤ total_chunks lenMs chunkMs * chunkMs :=
        len_le_total_chunks_mul lenMs chunkMs hc
      rw [hm] at h1
      simp only [end_time]
      omega
    simp [hend]

/-- Concrete instantiation of C1: a 125-unit recording split into 60-unit
chunks (the spec's non-exact-division example). -/
theorem chunk_plan_partition_w :
    (chunkWindows 125 60).length = (125 + 60 - 1) / 60 ∧
    (chunkWindows 125 60).Chain' (fun a b => a.2 = b.1) ∧
    (chunkWindows 125 60).Pairwise (fun a b => a.2 ≤ b.1) ∧
    (∀ w ∈ chunkWindows 125 60, w.1 < w.2 ∧ w.2 ≤ 125) ∧
    ((chunkWindows 125 60).map Prod.fst).head? = some 0 ∧
    ((chunkWindows 125 60).map Prod.snd).getLast? = some 125 :=
  chunk_plan_partition 125 60 (by decide) (by decide)

/-- The per-chunk progress message, line 456-457:
`progress = 20 + (i / total_chunks) * 70`;
`("progress", progress, f"分割中... ({i+1}/{total_chunks})")`. -/
def chunkProgress (N i : Nat) : Event :=
  .progress (20 + ((i : ℚ) / (N : ℚ)) * 70) s!"分割中... ({i + 1}/{N})"

/-- Line 477: `("error", f"エラーが発生しました: {str(e)}")`. -/
def errWrap (m : String) : String := "エラーが発生しました: " ++ m

/-- The environment a run of `split_audio_thread` interacts with.  The fields
embed, in order: whether `os.makedirs` succeeds (line 416), whether
`AudioSegment.from_file` succeeds (line 423), the decoded length in ms
(`len(audio)`), the `split_duration` minutes read at line 411, the source
stem (`Path(input_path).stem`, line 433), the value of the
`preserve_quality` Tkinter variable when chunk `i` reads it (line 461), the
value of the `_stop_requested` flag when iteration `i` polls it (line 439),
whether `chunk.export` succeeds for chunk `i` (line 464), the exception
texts of those failure sites, the value of the `auto_open_folder` Tkinter
variable read at line 472 after the success message, whether
`open_output_folder` (line 473) returns without raising (on Windows
`os.startfile` at line 497 can raise), and the text of that exception. -/
structure JobEnv where
  makedirsOk : Bool
  decodeOk : Bool
  audioLen : Nat
  durationMinutes : Nat
  inputStem : String
  preserveQuality : Nat → Bool
  stopRequested : Nat → Bool
  exportOk : Nat → Bool
  mkdirExc : String
  decodeExc : String
  exportExc : Nat → String
  autoOpenFolder : Bool
  openFolderOk : Bool
  openExc : String

/-- Lines 471-473, still inside the worker's `try` block: after the success
message is put, if the auto-open option is set the output folder is opened;
when that raises (e.g. `os.startfile` on Windows), the `except` at line 475
puts one more `("error", ...)` message — after the success terminal
message.  Otherwise nothing further is put. -/
def openTail (env : JobEnv) : List Event :=
  if env.autoOpenFolder && !env.openFolderOk then [.error (errWrap env.openExc)]
  else []

/-- The chunk loop of lines 438-469, from iteration `i` with `k` iterations
remaining.  Returns the queue messages put from this point on and the output
files written (name, paired with the `preserve_quality` value that selects
the 320k bitrate at lines 460-462).  When the loop finishes the two final
messages of lines 468-469 are put, followed by whatever the auto-open step
of lines 471-473 puts (`openTail`) — the loop's other exits return before
reaching that step. -/
def run_chunks (env : JobEnv) (N : Nat) : Nat → Nat → List Event × List (String × Bool)
  | 0, _ =>
    ([.progress 100 "完了！",
      .success s!"✅ 分割完了！ {N}個のファイルが作成されました"] ++ openTail env, [])
  | k + 1, i =>
    if env.stopRequested i then ([.error "処理がキャンセルされました"], [])
    else if env.exportOk i then
      let r := run_chunks env N k (i + 1)
      (chunkProgress N i :: r.1,
       (output_filename env.inputStem i, env.preserveQuality i) :: r.2)
    else ([chunkProgress N i, .error (errWrap (env.exportExc i))], [])

/-- Lines 406-477 (`split_audio_thread`): the whole worker, as the list of
queue messages it puts and the list of files it exports.  The `try` block
spans through line 473, so any failure inside it (makedirs, decode, the
`ZeroDivisionError` of line 428 when the chunk length is 0, a chunk export,
or the auto-open step after the success message) ends the worker with one
`("error", ...)` message. -/
def split_audio_thread (env : JobEnv) : List Event × List (String × Bool) :=
  if env.makedirsOk then
    if env.decodeOk then
      if env.durationMinutes * 60 * 1000 = 0 then
        ([.progress 10 "音声ファイルを読み込み中...",
          .error (errWrap "division by zero")], [])
      else
        let N := total_chunks env.audioLen (env.durationMinutes * 60 * 1000)
        let r := run_chunks env N N 0
        (.progress 10 "音声ファイルを読み込み中..." ::
           .progress 20 s!"{N}個のファイルに分割します" :: r.1,
         r.2)
    else
      ([.progress 10 "音声ファイルを読み込み中...", .error (errWrap env.decodeExc)], [])
  else ([.error (errWrap env.mkdirExc)], [])

/-- The state `validate_inputs` (lines 386-404) reads: the two path entry
variables, whether the input path exists on disk, and the split duration
spinbox value. -/
structure AppState where
  input_file : String
  input_file_exists : Bool
  output_dir : String
  split_duration : Int

/-- Lines 386-404: `validate_inputs` returns `False` (after showing an error
dialog) iff the input file is empty or missing, the output folder is empty,
or the duration is non-positive. -/
def validate_inputs (s : AppState) : Bool :=
  if s.input_file = "" then false
  else if ¬s.input_file_exists then false
  else if s.output_dir = "" then false
  else if s.split_duration ≤ 0 then false
  else true

/-- Lines 370-384 (`start_splitting`): when validation fails the method
returns before the worker thread is created, so no filesystem work happens;
otherwise the background job runs and its effects are those of
`split_audio_thread`. -/
def start_splitting (s : AppState) (env : JobEnv) :
    Option (List Event × List (String × Bool)) :=
  if validate_inputs s then some (split_audio_thread env) else none

/-- The environment of one `on_input_file_change` probe (lines 301-368):
whether a file is selected and exists (line 304), whether the FFmpeg
transcode to `temp/temp_audio.wav` succeeds (lines 317-331), whether the
`AudioSegment.from_file` read of the temp file succeeds (line 335), and
whether the `os.remove` of the temp file succeeds (line 353). -/
structure ProbeEnv where
  file_selected : Bool
  ffmpegOk : Bool
  readOk : Bool
  removeOk : Bool

/-- The observable outcome of one probe: whether the temporary decoded
artifact was created, whether it still exists when the handler returns,
whether the file info was loaded, and whether an error dialog was shown. -/
structure ProbeResult where
  tempCreated : Bool
  tempExistsAtReturn : Bool
  infoLoaded : Bool
  errorShown : Bool
deriving DecidableEq

/-- Lines 301-368 (`on_input_file_change`): FFmpeg decodes the selected file
into `temp/temp_audio.wav`; on success the duration is read and the temp
file removed (removal failure only logged, line 355); the two `except`
branches (lines 357-365) show an error dialog and do not remove the temp
file. -/
def on_input_file_change (env : ProbeEnv) : ProbeResult :=
  if ¬env.file_selected then ⟨false, false, false, false⟩
  else if ¬env.ffmpegOk then ⟨false, false, false, true⟩
  else if ¬env.readOk then ⟨true, true, false, true⟩
  else if env.removeOk then ⟨true, false, true, false⟩
  else ⟨true, true, true, false⟩

/-- A fixed, fully specified job environment used to instantiate theorems at
concrete inputs. -/
def envTrivial : JobEnv :=
  ⟨true, true, 0, 1, "a", fun _ => true, fun _ => false, fun _ => true,
   "", "", fun _ => "", false, true, ""⟩

/-- Claim C6: for every invalid configuration (empty or non-existent source
path, empty output directory, or non-positive chunk length), `validate_inputs`
returns false and `start_splitting` returns before the worker thread is
created, so no background work begins, no file or directory is created and no
decode is attempted. -/
theorem invalid_config_rejected (s : AppState) (env : JobEnv)
    (h : s.input_file = "" ∨ s.input_file_exists = false ∨
      s.output_dir = "" ∨ s.split_duration ≤ 0) :
    validate_inputs s = false ∧ start_splitting s env = none := by
  have hv : validate_inputs s = false := by
    unfold validate_inputs
    rcases h with h | h | h | h <;> split_ifs <;> simp_all
  refine ⟨hv, ?_⟩
  unfold start_splitting
  rw [hv]
  simp

/-- C6 at a concrete input: an empty source path is rejected. -/
theorem invalid_config_rejected_w :
    validate_inputs ⟨"", true, "out", 90⟩ = false ∧
    start_splitting ⟨"", true, "out", 90⟩ envTrivial = none :=
  invalid_config_rejected ⟨"", true, "out", 90⟩ envTrivial (Or.inl rfl)

/-- Counterexample to claim C7 as stated: when FFmpeg's decode succeeds but
the subsequent read of the temporary wav fails (the `except` branch at lines
362-365), the probe returns with the temporary decoded artifact still on
disk — it is not removed on every exit path. -/
theorem probe_temp_leak_cex :
    (on_input_file_change ⟨true, true, false, true⟩).tempCreated = true ∧
    (on_input_file_change ⟨true, true, false, true⟩).tempExistsAtReturn = true := by
  exact ⟨rfl, rfl⟩

/-- Claim C7 as amended: a probe of a selected file creates at most one
temporary decoded artifact; it is removed before returning only on the path
where both the metadata read and the removal succeed; on the failure exit
paths (decode read rejected, or the removal itself failing, which is only
logged) the artifact is left behind. -/
theorem probe_temp_cleanup (env : ProbeEnv) :
    (on_input_file_change env).tempCreated = (env.file_selected && env.ffmpegOk) ∧
    (on_input_file_change env).tempExistsAtReturn =
      (env.file_selected && env.ffmpegOk && !(env.readOk && env.removeOk)) := by
  rcases env with ⟨a, b, c, d⟩
  cases a <;> cases b <;> cases c <;> cases d <;> exact ⟨rfl, rfl⟩

/-- As long as the cancellation flag reads false and the exports succeed, the
loop emits one per-chunk progress message and writes one file per iteration. -/
theorem run_chunks_clean_steps (env : JobEnv) (N : Nat) :
    ∀ m k i, m ≤ k →
      (∀ j, j < m → env.stopRequested (i + j) = false ∧ env.exportOk (i + j) = true) →
      run_chunks env N k i =
        ((List.range' i m).map (chunkProgress N) ++
           (run_chunks env N (k - m) (i + m)).1,
         (List.range' i m).map
             (fun j => (output_filename env.inputStem j, env.preserveQuality j)) ++
           (run_chunks env N (k - m) (i + m)).2) := by
  intro m
  induction m with
  | zero => intro k i _ _; simp [List.range']
  | succ m ih =>
    intro k i hm hclean
    obtain ⟨k', rfl⟩ : ∃ k', k = k' + 1 := ⟨k - 1, by omega⟩
    have h0 := hclean 0 (by omega)
    rw [Nat.add_zero] at h0
    have hstep : run_chunks env N (k' + 1) i =
        (chunkProgress N i :: (run_chunks env N k' (i + 1)).1,
         (output_filename env.inputStem i, env.preserveQuality i) ::
           (run_chunks env N k' (i + 1)).2) := by
      simp [run_chunks, h0.1, h0.2]
    have hrec := ih k' (i + 1) (by omega) (fun j hj => by
      have h2 := hclean (j + 1) (by omega)
      rwa [show i + (j + 1) = i + 1 + j by omega] at h2)
    rw [hstep, hrec]
    have hr : List.range' i (m + 1) = i :: List.range' (i + 1) m := rfl
    have hk2 : k' + 1 - (m + 1) = k' - m := by omega
    have hi2 : i + (m + 1) = i + 1 + m := by omega
    rw [hr, hk2, hi2]
    simp

/-- When the auto-open option is off, or the folder opens without raising,
the auto-open step of lines 471-473 puts nothing. -/
theorem openTail_eq_nil (env : JobEnv)
    (hopen : env.autoOpenFolder = false ∨ env.openFolderOk = true) :
    openTail env = [] := by
  rcases hopen with h | h <;> simp [openTail, h]

/-- Claim C3: if the cancellation flag is first seen set at the boundary
check of iteration `k` (chunks `0..k-1` were exported, the flag reads false
before each of them), the worker stops there: exactly the `k` files of the
completed chunks exist, the last queue message is the cancellation error, and
no success message is ever put for the job. -/
theorem cancellation_boundary (env : JobEnv) (k : Nat)
    (hmk : env.makedirsOk = true) (hdec : env.decodeOk = true)
    (hdm : 0 < env.durationMinutes)
    (hk : k < total_chunks env.audioLen (env.durationMinutes * 60 * 1000))
    (hclean : ∀ j, j < k → env.stopRequested j = false ∧ env.exportOk j = true)
    (hstop : env.stopRequested k = true) :
    (split_audio_thread env).2 =
      (List.range k).map
        (fun j => (output_filename env.inputStem j, env.preserveQuality j)) ∧
    (split_audio_thread env).2.length = k ∧
    (split_audio_thread env).1.getLast? = some (.error "処理がキャンセルされました") ∧
    (∀ m, Event.success m ∉ (split_audio_thread env).1) := by
  have hc : ¬env.durationMinutes * 60 * 1000 = 0 := by
    intro h
    omega
  set N := total_chunks env.audioLen (env.durationMinutes * 60 * 1000) with hNdef
  have hsteps := run_chunks_clean_steps env N k N 0 (Nat.le_of_lt hk)
    (fun j hj => by simpa using hclean j hj)
  obtain ⟨d, hd⟩ : ∃ d, N - k = d + 1 := ⟨N - k - 1, by omega⟩
  have htail : run_chunks env N (N - k) (0 + k) = ([.error "処理がキャンセルされました"], []) := by
    rw [show (0 + k) = k by omega, hd]
    simp [run_chunks, hstop]
  rw [htail] at hsteps
  have hsplit : split_audio_thread env =
      (.progress 10 "音声ファイルを読み込み中..." ::
         .progress 20 s!"{N}個のファイルに分割します" :: (run_chunks env N N 0).1,
       (run_chunks env N N 0).2) := by
    simp [split_audio_thread, hmk, hdec, hc]
  rw [hsplit, hsteps]
  refine ⟨?_, ?_, ?_, ?_⟩
  · simp [List.range_eq_range']
  · simp
  · rw [show (Event.progress 10 "音声ファイルを読み込み中..." ::
        Event.progress 20 s!"{N}個のファイルに分割します" ::
        ((List.range' 0 k).map (chunkProgress N) ++ [Event.error "処理がキャンセルされました"])) =
        ((Event.progress 10 "音声ファイルを読み込み中..." ::
          Event.progress 20 s!"{N}個のファイルに分割します" ::
          (List.range' 0 k).map (chunkProgress N)) ++ [Event.error "処理がキャンセルされました"])
        by simp]
    exact List.getLast?_concat _
  · intro m hm
    simp [chunkProgress] at hm

/-- C3 at a concrete input: a three-chunk job cancelled at the boundary after
the first chunk. -/
def envC3 : JobEnv :=
  ⟨true, true, 150000, 1, "audio", fun _ => true, fun j => decide (1 ≤ j),
   fun _ => true, "", "", fun _ => "", false, true, ""⟩

/-- C3 witness: with `envC3` the worker writes exactly one file and ends with
the cancellation error. -/
theorem cancellation_boundary_w :
    (split_audio_thread envC3).2 =
      (List.range 1).map
        (fun j => (output_filename envC3.inputStem j, envC3.preserveQuality j)) ∧
    (split_audio_thread envC3).2.length = 1 ∧
    (split_audio_thread envC3).1.getLast? = some (.error "処理がキャンセルされました") ∧
    (∀ m, Event.success m ∉ (split_audio_thread envC3).1) :=
  cancellation_boundary envC3 1 rfl rfl (by decide) (by decide)
    (fun j hj => by interval_cases j; exact ⟨rfl, rfl⟩) rfl

/-- Progress messages are never terminal, so a block of per-chunk progress
messages contributes no terminal message. -/
theorem countP_terminal_chunkProgress (N : Nat) (l : List Nat) :
    (l.map (chunkProgress N)).countP Event.isTerminal = 0 := by
  induction l with
  | nil => rfl
  | cons x xs ih => simp [List.countP_cons, chunkProgress, Event.isTerminal, ih]

/-- Claim C9: on a decode failure, or on an export failure at chunk `f`
(after `f` clean chunks), the worker aborts the remaining work and puts
exactly one error terminal message, never a success message, and every file
already written is left in place: a decode failure ends the trace right
after the loading message with no file written; an export failure at chunk
`f` leaves exactly the `f` completed chunks' files, with the single error
terminal message last. -/
theorem failure_preserves_completed_chunks (env : JobEnv) (f : Nat)
    (hmk : env.makedirsOk = true) (hdm : 0 < env.durationMinutes) :
    (env.decodeOk = false →
      (split_audio_thread env).1 =
        [.progress 10 "音声ファイルを読み込み中...", .error (errWrap env.decodeExc)] ∧
      (split_audio_thread env).2 = [] ∧
      (split_audio_thread env).1.countP Event.isTerminal = 1 ∧
      (∀ m, Event.success m ∉ (split_audio_thread env).1)) ∧
    (env.decodeOk = true →
      f < total_chunks env.audioLen (env.durationMinutes * 60 * 1000) →
      (∀ j, j < f → env.stopRequested j = false ∧ env.exportOk j = true) →
      env.stopRequested f = false → env.exportOk f = false →
      (split_audio_thread env).2 =
        (List.range f).map
          (fun j => (output_filename env.inputStem j, env.preserveQuality j)) ∧
      (split_audio_thread env).2.length = f ∧
      (split_audio_thread env).1.getLast? = some (.error (errWrap (env.exportExc f))) ∧
      (split_audio_thread env).1.countP Event.isTerminal = 1 ∧
      (∀ m, Event.success m ∉ (split_audio_thread env).1)) := by
  have hc : ¬env.durationMinutes * 60 * 1000 = 0 := by
    intro h
    omega
  constructor
  · intro hd
    have h1 : split_audio_thread env =
        ([.progress 10 "音声ファイルを読み込み中...", .error (errWrap env.decodeExc)], []) := by
      simp [split_audio_thread, hmk, hd]
    rw [h1]
    refine ⟨rfl, rfl, ?_, ?_⟩
    · simp [List.countP_cons, Event.isTerminal]
    · intro m hm
      simp at hm
  intro hdec hf hclean hstop hfail
  set N := total_chunks env.audioLen (env.durationMinutes * 60 * 1000) with hNdef
  have hsteps := run_chunks_clean_steps env N f N 0 (Nat.le_of_lt hf)
    (fun j hj => by simpa using hclean j hj)
  obtain ⟨d, hd⟩ : ∃ d, N - f = d + 1 := ⟨N - f - 1, by omega⟩
  have htail : run_chunks env N (N - f) (0 + f) =
      ([chunkProgress N f, .error (errWrap (env.exportExc f))], []) := by
    rw [show (0 + f) = f by omega, hd]
    simp [run_chunks, hstop, hfail]
  rw [htail] at hsteps
  have hsplit : split_audio_thread env =
      (.progress 10 "音声ファイルを読み込み中..." ::
         .progress 20 s!"{N}個のファイルに分割します" :: (run_chunks env N N 0).1,
       (run_chunks env N N 0).2) := by
    simp [split_audio_thread, hmk, hdec, hc]
  rw [hsplit, hsteps]
  refine ⟨?_, ?_, ?_, ?_, ?_⟩
  · simp [List.range_eq_range']
  · simp
  · rw [show (Event.progress 10 "音声ファイルを読み込み中..." ::
        Event.progress 20 s!"{N}個のファイルに分割します" ::
        ((List.range' 0 f).map (chunkProgress N) ++
          [chunkProgress N f, Event.error (errWrap (env.exportExc f))])) =
        ((Event.progress 10 "音声ファイルを読み込み中..." ::
          Event.progress 20 s!"{N}個のファイルに分割します" ::
          ((List.range' 0 f).map (chunkProgress N) ++ [chunkProgress N f])) ++
          [Event.error (errWrap (env.exportExc f))])
        by simp]
    exact List.getLast?_concat _
  · simp [List.countP_cons, List.countP_append, countP_terminal_chunkProgress,
      Event.isTerminal, chunkProgress]
  · intro m hm
    simp [chunkProgress] at hm

/-- C9 at a concrete input: a three-chunk job whose second export fails. -/
def envC9 : JobEnv :=
  ⟨true, true, 150000, 1, "audio", fun _ => true, fun _ => false,
   fun j => decide (j = 0), "", "", fun _ => "disk full", false, true, ""⟩

/-- C9 witness: with `envC9` exactly the first chunk's file exists and the
trace ends with the single error terminal message. -/
theorem failure_preserves_completed_chunks_w :
    (split_audio_thread envC9).2 =
      (List.range 1).map
        (fun j => (output_filename envC9.inputStem j, envC9.preserveQuality j)) ∧
    (split_audio_thread envC9).2.length = 1 ∧
    (split_audio_thread envC9).1.getLast? = some (.error (errWrap (envC9.exportExc 1))) ∧
    (split_audio_thread envC9).1.countP Event.isTerminal = 1 ∧
    (∀ m, Event.success m ∉ (split_audio_thread envC9).1) :=
  (failure_preserves_completed_chunks envC9 1 rfl (by decide)).2 rfl (by decide)
    (fun j hj => by interval_cases j; exact ⟨rfl, rfl⟩) rfl rfl

/-- A one-chunk job: decoded length 60000 ms, 1-minute chunks, everything
succeeds. -/
def envC4 : JobEnv :=
  ⟨true, true, 60000, 1, "audio", fun _ => true, fun _ => false,
   fun _ => true, "", "", fun _ => "", false, true, ""⟩

/-- Counterexample to claim C4 as stated: in a 1-chunk job the claim demands
a progress message of percent `20 + 70*(0+1)/1 = 90` after the chunk is
encoded, but the trace's progress percents are `10, 20, 20, 100` — the
per-chunk message carries `20 + 70*i/N` (here 20) and is put before the
export, and no percent-90 message exists. -/
theorem chunk_progress_percent_cex :
    eventPercents (split_audio_thread envC4).1 = [10, 20, 20, 100] ∧
    (90 : ℚ) ∉ eventPercents (split_audio_thread envC4).1 := by
  have h : eventPercents (split_audio_thread envC4).1 = [10, 20, 20, 100] := by
    simp [split_audio_thread, envC4, run_chunks, total_chunks, chunkProgress,
      eventPercents, openTail]
  refine ⟨h, ?_⟩
  rw [h]
  norm_num

/-- Claim C4 as amended: for every chunk `i` (0-based) of an `N`-chunk job
that is reached without cancellation, the worker emits — before exporting the
chunk — a progress message at trace position `2 + i` whose percent is
`20 + 70*i/N` and whose message names chunk `i+1` of `N`. -/
theorem chunk_progress_event (env : JobEnv) (i : Nat)
    (hmk : env.makedirsOk = true) (hdec : env.decodeOk = true)
    (hdm : 0 < env.durationMinutes)
    (hi : i < total_chunks env.audioLen (env.durationMinutes * 60 * 1000))
    (hclean : ∀ j, j < i → env.stopRequested j = false ∧ env.exportOk j = true)
    (hstop : env.stopRequested i = false) :
    (split_audio_thread env).1.get? (2 + i) =
      some (.progress
        (20 + ((i : ℚ) /
          ((total_chunks env.audioLen (env.durationMinutes * 60 * 1000) : Nat) : ℚ)) * 70)
        s!"分割中... ({i + 1}/{total_chunks env.audioLen (env.durationMinutes * 60 * 1000)})") := by
  have hc : ¬env.durationMinutes * 60 * 1000 = 0 := by
    intro h
    omega
  set N := total_chunks env.audioLen (env.durationMinutes * 60 * 1000) with hNdef
  have hsteps := run_chunks_clean_steps env N i N 0 (Nat.le_of_lt hi)
    (fun j hj => by simpa using hclean j hj)
  obtain ⟨d, hd⟩ : ∃ d, N - i = d + 1 := ⟨N - i - 1, by omega⟩
  obtain ⟨tl, htl⟩ : ∃ tl,
      (run_chunks env N (N - i) (0 + i)).1 = chunkProgress N i :: tl := by
    rw [show (0 + i) = i by omega, hd]
    by_cases he : env.exportOk i
    · refine ⟨(run_chunks env N d (i + 1)).1, ?_⟩
      simp [run_chunks, hstop, he]
    · refine ⟨[.error (errWrap (env.exportExc i))], ?_⟩
      simp [run_chunks, hstop, he]
  have hev : (run_chunks env N N 0).1 =
      (List.range' 0 i).map (chunkProgress N) ++
        (run_chunks env N (N - i) (0 + i)).1 := by
    rw [hsteps]
  have hsplit : (split_audio_thread env).1 =
      .progress 10 "音声ファイルを読み込み中..." ::
        .progress 20 s!"{N}個のファイルに分割します" :: (run_chunks env N N 0).1 := by
    simp [split_audio_thread, hmk, hdec, hc]
  rw [hsplit, show 2 + i = (i + 1) + 1 by omega, List.get?_cons_succ,
    List.get?_cons_succ, hev, htl]
  have hlen : ((List.range' 0 i).map (chunkProgress N)).length = i := by
    simp
  rw [List.get?_append_right (le_of_eq hlen), hlen]
  simp [chunkProgress]

/-- A two-chunk job: decoded length 120000 ms, 1-minute chunks, everything
succeeds. -/
def envC4w : JobEnv :=
  ⟨true, true, 120000, 1, "sound", fun _ => true, fun _ => false,
   fun _ => true, "", "", fun _ => "", false, true, ""⟩

/-- C4 (amended) at a concrete input: chunk 1 of the two-chunk job `envC4w`
gets the percent `20 + 70*1/2` message at position 3. -/
theorem chunk_progress_event_w :
    (split_audio_thread envC4w).1.get? (2 + 1) =
      some (.progress
        (20 + ((1 : ℚ) /
          ((total_chunks envC4w.audioLen (envC4w.durationMinutes * 60 * 1000) : Nat) : ℚ)) * 70)
        s!"分割中... ({1 + 1}/{total_chunks envC4w.audioLen (envC4w.durationMinutes * 60 * 1000)})") :=
  chunk_progress_event envC4w 1 rfl rfl (by decide) (by decide)
    (fun j hj => by interval_cases j; exact ⟨rfl, rfl⟩) rfl

/-- The files the loop writes from iteration `i` on are always the files of
consecutive chunk indices starting at `i`, each paired with the
`preserve_quality` value read at its own iteration. -/
theorem run_chunks_files_shape (env : JobEnv) (N : Nat) :
    ∀ k i, ∃ m, (run_chunks env N k i).2 =
      (List.range' i m).map
        (fun j => (output_filename env.inputStem j, env.preserveQuality j)) := by
  intro k
  induction k with
  | zero => intro i; exact ⟨0, rfl⟩
  | succ k ih =>
    intro i
    by_cases hs : env.stopRequested i
    · exact ⟨0, by simp [run_chunks, hs]⟩
    · by_cases he : env.exportOk i
      · obtain ⟨m, hm⟩ := ih (i + 1)
        refine ⟨m + 1, ?_⟩
        rw [show List.range' i (m + 1) = i :: List.range' (i + 1) m from rfl]
        simp [run_chunks, hs, he, hm]
      · exact ⟨0, by simp [run_chunks, hs, he]⟩

/-- Whatever file the job writes at position `j` of its output list is the
chunk-`j` file, exported with the `preserve_quality` value read at chunk `j`
(not the value at job start). -/
theorem split_files_entry (env : JobEnv) :
    ∀ j, j < (split_audio_thread env).2.length →
      (split_audio_thread env).2.get? j =
        some (output_filename env.inputStem j, env.preserveQuality j) := by
  intro j hj
  by_cases ha : env.makedirsOk
  · by_cases hd : env.decodeOk
    · by_cases hc : env.durationMinutes * 60 * 1000 = 0
      · rw [show (split_audio_thread env).2 = [] from by
          simp [split_audio_thread, ha, hd, hc]] at hj
        simp at hj
      · have hfiles : (split_audio_thread env).2 =
            (run_chunks env (total_chunks env.audioLen (env.durationMinutes * 60 * 1000))
              (total_chunks env.audioLen (env.durationMinutes * 60 * 1000)) 0).2 := by
          simp [split_audio_thread, ha, hd, hc]
        obtain ⟨m, hm⟩ := run_chunks_files_shape env
          (total_chunks env.audioLen (env.durationMinutes * 60 * 1000))
          (total_chunks env.audioLen (env.durationMinutes * 60 * 1000)) 0
        rw [hfiles, hm] at hj ⊢
        rw [List.length_map, List.length_range'] at hj
        rw [List.get?_map, List.get?_range' 0 1 hj]
        simp
    · rw [show (split_audio_thread env).2 = [] from by
        simp [split_audio_thread, ha, hd]] at hj
      simp at hj
  · rw [show (split_audio_thread env).2 = [] from by
      simp [split_audio_thread, ha]] at hj
    simp at hj

/-- The loop's queue messages and the names of the files it writes do not
depend on the `preserve_quality` surface at all — only the bitrate flag
stored with each export does. -/
theorem run_chunks_events_pq (a d : Bool) (len dm : Nat) (stem : String)
    (pq1 pq2 stp exo : Nat → Bool) (m1 m2 : String) (m3 : Nat → String)
    (ao oo : Bool) (m4 : String) (N : Nat) :
    ∀ k i,
      (run_chunks ⟨a, d, len, dm, stem, pq1, stp, exo, m1, m2, m3, ao, oo, m4⟩ N k i).1 =
        (run_chunks ⟨a, d, len, dm, stem, pq2, stp, exo, m1, m2, m3, ao, oo, m4⟩ N k i).1 ∧
      (run_chunks ⟨a, d, len, dm, stem, pq1, stp, exo, m1, m2, m3, ao, oo, m4⟩ N k i).2.map Prod.fst =
        (run_chunks ⟨a, d, len, dm, stem, pq2, stp, exo, m1, m2, m3, ao, oo, m4⟩ N k i).2.map Prod.fst := by
  intro k
  induction k with
  | zero => intro i; exact ⟨rfl, rfl⟩
  | succ k ih =>
    intro i
    by_cases hs : stp i
    · constructor <;> simp [run_chunks, hs]
    · by_cases he : exo i
      · have h2 := ih (i + 1)
        constructor <;> simp [run_chunks, hs, he, h2.1, h2.2]
      · constructor <;> simp [run_chunks, hs, he]

/-- A job like `envC4w` whose `preserve_quality` surface is mutated to false
after chunk 0 starts. -/
def envC8B : JobEnv :=
  ⟨true, true, 120000, 1, "sound", fun j => decide (j = 0), fun _ => false,
   fun _ => true, "", "", fun _ => "", false, true, ""⟩

/-- Counterexample to claim C8 as stated: `envC4w` and `envC8B` describe the
same configuration at job start (same paths, chunk length, and
`preserve_quality` value when chunk 0 reads it), differing only in the
`preserve_quality` surface value after chunk 0 — yet the running job's output
differs, because line 461 re-reads the Tkinter variable for every chunk. -/
theorem preserve_quality_mutation_cex :
    envC4w.preserveQuality 0 = envC8B.preserveQuality 0 ∧
    (split_audio_thread envC4w).2 ≠ (split_audio_thread envC8B).2 := by
  constructor
  · rfl
  · decide

/-- Claim C8 as amended: the source path, output directory and chunk length
are read once at thread start (lines 409-411) and are fixed for the job, and
the queue messages and output file names never depend on `preserve_quality`;
but `preserve_quality` itself is re-read from the configuration surface at
every chunk (line 461), so chunk `j` is exported with the surface value
current at chunk `j`, and mutating that surface mid-job changes later chunks'
encoding parameters. -/
theorem preserve_quality_reread (a d : Bool) (len dm : Nat) (stem : String)
    (pq1 pq2 stp exo : Nat → Bool) (m1 m2 : String) (m3 : Nat → String)
    (ao oo : Bool) (m4 : String) :
    (split_audio_thread ⟨a, d, len, dm, stem, pq1, stp, exo, m1, m2, m3, ao, oo, m4⟩).1 =
      (split_audio_thread ⟨a, d, len, dm, stem, pq2, stp, exo, m1, m2, m3, ao, oo, m4⟩).1 ∧
    (split_audio_thread ⟨a, d, len, dm, stem, pq1, stp, exo, m1, m2, m3, ao, oo, m4⟩).2.map Prod.fst =
      (split_audio_thread ⟨a, d, len, dm, stem, pq2, stp, exo, m1, m2, m3, ao, oo, m4⟩).2.map Prod.fst ∧
    ∀ j, j < (split_audio_thread ⟨a, d, len, dm, stem, pq1, stp, exo, m1, m2, m3, ao, oo, m4⟩).2.length →
      (split_audio_thread ⟨a, d, len, dm, stem, pq1, stp, exo, m1, m2, m3, ao, oo, m4⟩).2.get? j =
        some (output_filename stem j, pq1 j) := by
  have h3 := split_files_entry ⟨a, d, len, dm, stem, pq1, stp, exo, m1, m2, m3, ao, oo, m4⟩
  cases a with
  | false => refine ⟨?_, ?_, h3⟩ <;> simp [split_audio_thread]
  | true =>
    cases d with
    | false => refine ⟨?_, ?_, h3⟩ <;> simp [split_audio_thread]
    | true =>
      by_cases hc : dm * 60 * 1000 = 0
      · refine ⟨?_, ?_, h3⟩ <;> simp [split_audio_thread, hc]
      · have hev := run_chunks_events_pq true true len dm stem pq1 pq2 stp exo m1 m2 m3
          ao oo m4 (total_chunks len (dm * 60 * 1000)) (total_chunks len (dm * 60 * 1000)) 0
        refine ⟨?_, ?_, h3⟩ <;>
          simp [split_audio_thread, hc, hev.1, hev.2]

/-- C8 (amended) at a concrete input: in the two-chunk job `envC4w` the file
written for chunk 0 is the chunk-0 name with the chunk-0 surface value. -/
theorem preserve_quality_reread_w :
    (split_audio_thread ⟨true, true, 120000, 1, "sound", fun _ => true,
        fun _ => false, fun _ => true, "", "", fun _ => "", false, true, ""⟩).2.get? 0 =
      some (output_filename "sound" 0, true) :=
  (preserve_quality_reread true true 120000 1 "sound" (fun _ => true)
    (fun j => decide (j = 0)) (fun _ => false) (fun _ => true) "" ""
    (fun _ => "") false true "").2.2 0 (by decide)

/-- A trace consisting of progress messages whose percents are non-decreasing
and all at least `lo`, followed by exactly one terminal message. -/
inductive ProgThenTerm : ℚ → List Event → Prop where
  | term (lo : ℚ) (t : Event) (ht : t.isTerminal = true) : ProgThenTerm lo [t]
  | step (lo p : ℚ) (m : String) (evs : List Event) (hlo : lo ≤ p)
      (h : ProgThenTerm p evs) : ProgThenTerm lo (.progress p m :: evs)

theorem ProgThenTerm.mono (lo' lo : ℚ) (evs : List Event) (hle : lo' ≤ lo)
    (h : ProgThenTerm lo evs) : ProgThenTerm lo' evs := by
  cases h with
  | term _ t ht => exact .term lo' t ht
  | step _ p m evs hlo hp => exact .step lo' p m evs (le_trans hle hlo) hp

theorem ProgThenTerm.shape (lo : ℚ) (evs : List Event) (h : ProgThenTerm lo evs) :
    evs.dropLast.all Event.isProgress = true ∧
    (∃ t, evs.getLast? = some t ∧ t.isTerminal = true) ∧
    evs.countP Event.isTerminal = 1 := by
  induction h with
  | term lo t ht => exact ⟨rfl, ⟨t, rfl, ht⟩, by simp [List.countP_cons, ht]⟩
  | step lo p m evs hlo hp ih =>
    obtain ⟨h1, ⟨t, ht1, ht2⟩, h3⟩ := ih
    have hne : evs ≠ [] := by
      intro hn
      rw [hn] at ht1
      simp at ht1
    obtain ⟨x, xs, rfl⟩ : ∃ x xs, evs = x :: xs := by
      cases evs with
      | nil => exact absurd rfl hne
      | cons x xs => exact ⟨x, xs, rfl⟩
    refine ⟨?_, ⟨t, ?_, ht2⟩, ?_⟩
    · rw [List.dropLast_cons₂, List.all_cons]
      exact by simp [Event.isProgress, h1]
    · rw [List.getLast?_cons_cons]
      exact ht1
    · rw [List.countP_cons]
      simp [Event.isTerminal, h3]

theorem ProgThenTerm.chain (lo : ℚ) (evs : List Event) (h : ProgThenTerm lo evs) :
    List.Chain' (fun p q => p ≤ q) (eventPercents evs) ∧
    ∀ q ∈ eventPercents evs, lo ≤ q := by
  induction h with
  | term lo t ht =>
    have he : eventPercents [t] = [] := by
      cases t with
      | progress p m => simp [Event.isTerminal] at ht
      | success m => rfl
      | error m => rfl
    rw [he]
    exact ⟨List.chain'_nil, by simp⟩
  | step lo p m evs hlo hp ih =>
    have he : eventPercents (.progress p m :: evs) = p :: eventPercents evs := rfl
    rw [he]
    obtain ⟨h1, h2⟩ := ih
    refine ⟨List.chain'_cons'.mpr ⟨?_, h1⟩, ?_⟩
    · intro q hq
      exact h2 q (List.mem_of_mem_head? hq)
    · intro q hq
      rcases List.mem_cons.mp hq with rfl | hq
      · exact hlo
      · exact le_trans hlo (h2 q hq)

theorem chunkPercent_mono (N i : Nat) :
    20 + ((i : ℚ) / (N : ℚ)) * 70 ≤ 20 + (((i + 1 : Nat) : ℚ) / (N : ℚ)) * 70 := by
  have h1 : ((i : ℚ) / (N : ℚ)) ≤ (((i + 1 : Nat) : ℚ) / (N : ℚ)) :=
    div_le_div_of_nonneg_right (by exact_mod_cast Nat.le_succ i)
      (by positivity)
  nlinarith

theorem chunkPercent_le_100 (N i : Nat) (h : i ≤ N) :
    20 + ((i : ℚ) / (N : ℚ)) * 70 ≤ 100 := by
  rcases Nat.eq_zero_or_pos N with h0 | h0
  · subst h0
    have hi : i = 0 := by omega
    subst hi
    norm_num
  · have hN : (0 : ℚ) < N := by exact_mod_cast h0
    have h1 : (i : ℚ) / N ≤ 1 := (div_le_one hN).mpr (by exact_mod_cast h)
    have h2 : (0 : ℚ) ≤ (i : ℚ) / N := div_nonneg (by positivity) (le_of_lt hN)
    nlinarith

/-- From iteration `i` of an `N`-chunk loop, the remaining trace is progress
messages of non-decreasing percents (starting at the chunk-`i` percent)
followed by exactly one terminal message, whatever the cancellation flag and
export failures do. -/
theorem run_chunks_ptt (env : JobEnv) (N : Nat)
    (hopen : env.autoOpenFolder = false ∨ env.openFolderOk = true) :
    ∀ k i, i + k = N →
      ProgThenTerm (20 + ((i : ℚ) / (N : ℚ)) * 70) (run_chunks env N k i).1 := by
  intro k
  induction k with
  | zero =>
    intro i hi
    have h0 : (run_chunks env N 0 i).1 =
        [.progress 100 "完了！",
         .success s!"✅ 分割完了！ {N}個のファイルが作成されました"] := by
      simp [run_chunks, openTail_eq_nil env hopen]
    rw [h0]
    exact .step _ 100 _ _ (chunkPercent_le_100 N i (by omega)) (.term _ _ rfl)
  | succ k ih =>
    intro i hi
    by_cases hs : env.stopRequested i
    · have h1 : (run_chunks env N (k + 1) i).1 = [.error "処理がキャンセルされました"] := by
        simp [run_chunks, hs]
      rw [h1]
      exact .term _ _ rfl
    · by_cases he : env.exportOk i
      · have h1 : (run_chunks env N (k + 1) i).1 =
            .progress (20 + ((i : ℚ) / (N : ℚ)) * 70) s!"分割中... ({i + 1}/{N})" ::
              (run_chunks env N k (i + 1)).1 := by
          simp [run_chunks, hs, he, chunkProgress]
        rw [h1]
        refine .step _ _ _ _ (le_refl _) ?_
        exact ProgThenTerm.mono _ _ _ (chunkPercent_mono N i) (ih (i + 1) (by omega))
      · have h1 : (run_chunks env N (k + 1) i).1 =
            [.progress (20 + ((i : ℚ) / (N : ℚ)) * 70) s!"分割中... ({i + 1}/{N})",
             .error (errWrap (env.exportExc i))] := by
          simp [run_chunks, hs, he, chunkProgress]
        rw [h1]
        exact .step _ _ _ _ (le_refl _) (.term _ _ rfl)

/-- As long as the auto-open step after the success message does not raise,
the whole worker trace is progress messages with percents at least 0 and
non-decreasing, then one terminal message. -/
theorem split_audio_thread_ptt (env : JobEnv)
    (hopen : env.autoOpenFolder = false ∨ env.openFolderOk = true) :
    ProgThenTerm 0 (split_audio_thread env).1 := by
  by_cases ha : env.makedirsOk
  · by_cases hd : env.decodeOk
    · by_cases hc : env.durationMinutes * 60 * 1000 = 0
      · have h1 : (split_audio_thread env).1 =
            [.progress 10 "音声ファイルを読み込み中...",
             .error (errWrap "division by zero")] := by
          simp [split_audio_thread, ha, hd, hc]
        rw [h1]
        exact .step _ 10 _ _ (by norm_num) (.term _ _ rfl)
      · have h1 : (split_audio_thread env).1 =
            .progress 10 "音声ファイルを読み込み中..." ::
              .progress 20
                s!"{total_chunks env.audioLen (env.durationMinutes * 60 * 1000)}個のファイルに分割します" ::
              (run_chunks env (total_chunks env.audioLen (env.durationMinutes * 60 * 1000))
                (total_chunks env.audioLen (env.durationMinutes * 60 * 1000)) 0).1 := by
          simp [split_audio_thread, ha, hd, hc]
        rw [h1]
        refine .step _ 10 _ _ (by norm_num) (.step _ 20 _ _ (by norm_num) ?_)
        have h2 := run_chunks_ptt env
          (total_chunks env.audioLen (env.durationMinutes * 60 * 1000)) hopen
          (total_chunks env.audioLen (env.durationMinutes * 60 * 1000)) 0 (by omega)
        refine ProgThenTerm.mono _ _ _ ?_ h2
        simp
    · have h1 : (split_audio_thread env).1 =
          [.progress 10 "音声ファイルを読み込み中...", .error (errWrap env.decodeExc)] := by
        simp [split_audio_thread, ha, hd]
      rw [h1]
      exact .step _ 10 _ _ (by norm_num) (.term _ _ rfl)
  · have h1 : (split_audio_thread env).1 = [.error (errWrap env.mkdirExc)] := by
      simp [split_audio_thread, ha]
    rw [h1]
    exact .term _ _ rfl

/-- A successful one-chunk job whose auto-open option is on and whose
folder-open step raises (`os.startfile` failing at line 497). -/
def envC2x : JobEnv :=
  ⟨true, true, 60000, 1, "audio", fun _ => true, fun _ => false,
   fun _ => true, "", "", fun _ => "", true, false, "startfile failed"⟩

/-- Counterexample to claim C2 as stated: the auto-open step of lines
471-473 runs inside the `try` block after the success message has been put,
so when it raises, the `except` at line 475 puts an error message after the
success terminal message — the trace of `envC2x` has two terminal messages,
the success message is not last, and an event is enqueued after it. -/
theorem terminal_event_followed_cex :
    (split_audio_thread envC2x).1.countP Event.isTerminal = 2 ∧
    (split_audio_thread envC2x).1.getLast? =
      some (.error (errWrap "startfile failed")) ∧
    Event.success "✅ 分割完了！ 1個のファイルが作成されました" ∈
      (split_audio_thread envC2x).1.dropLast := by
  refine ⟨by decide, by decide, by decide⟩

/-- Claim C2 as amended: for every job whose auto-open step does not raise
(the option off, or the folder opening succeeding), the queue receives zero
or more progress messages with non-decreasing percents, followed by exactly
one terminal message (success or error) which is the last message — nothing
is put after it.  (When the job succeeds and the auto-open step raises, one
error message follows the success message, per the counterexample.) -/
theorem event_stream_shape (env : JobEnv)
    (hopen : env.autoOpenFolder = false ∨ env.openFolderOk = true) :
    (split_audio_thread env).1.dropLast.all Event.isProgress = true ∧
    (∃ t, (split_audio_thread env).1.getLast? = some t ∧ t.isTerminal = true) ∧
    (split_audio_thread env).1.countP Event.isTerminal = 1 ∧
    List.Chain' (fun p q => p ≤ q) (eventPercents (split_audio_thread env).1) := by
  have hptt := split_audio_thread_ptt env hopen
  obtain ⟨h1, h2, h3⟩ := ProgThenTerm.shape 0 _ hptt
  exact ⟨h1, h2, h3, (ProgThenTerm.chain 0 _ hptt).1⟩

/-- C2 (amended) at a concrete input: the stream shape at `envTrivial`,
whose auto-open option is off. -/
theorem event_stream_shape_w :
    (split_audio_thread envTrivial).1.dropLast.all Event.isProgress = true ∧
    (∃ t, (split_audio_thread envTrivial).1.getLast? = some t ∧
      t.isTerminal = true) ∧
    (split_audio_thread envTrivial).1.countP Event.isTerminal = 1 ∧
    List.Chain' (fun p q => p ≤ q)
      (eventPercents (split_audio_thread envTrivial).1) :=
  event_stream_shape envTrivial (Or.inl rfl)

/-- Appending a common prefix preserves strict lexicographic order of
character lists. -/
theorem lex_append_left_of_lex {r : Char → Char → Prop} :
    ∀ (l : List Char) {xs ys : List Char},
      List.Lex r xs ys → List.Lex r (l ++ xs) (l ++ ys)
  | [], _, _, h => h
  | _ :: l, _, _, h => List.Lex.cons (lex_append_left_of_lex l h)

/-- Strict lexicographic order between equal-length character lists is
preserved by appending arbitrary suffixes. -/
theorem lex_append_of_eqlen {r : Char → Char → Prop} {xs ys : List Char}
    (u v : List Char) (h : List.Lex r xs ys) :
    xs.length = ys.length → List.Lex r (xs ++ u) (ys ++ v) := by
  induction h with
  | nil => intro hlen; simp at hlen
  | rel hr => intro _; exact List.Lex.rel hr
  | cons h ih => intro hlen; exact List.Lex.cons (ih (by simpa using hlen))

theorem pad2_lt_succ : ∀ i, i < 98 → (pad2 (i + 1)).data < (pad2 (i + 2)).data := by
  decide

theorem pad2_length_two : ∀ i, i < 99 → (pad2 (i + 1)).data.length = 2 := by
  decide

theorem output_filename_lt_succ (stem : String) (i : Nat) (hi : i < 98) :
    output_filename stem i < output_filename stem (i + 1) := by
  apply String.lt_iff_toList_lt.mpr
  show (output_filename stem i).data < (output_filename stem (i + 1)).data
  have hdata : ∀ j : Nat, (output_filename stem j).data =
      (stem.data ++ "_part".data) ++ ((pad2 (j + 1)).data ++ ".mp3".data) := by
    intro j
    simp [output_filename, String.data_append]
  rw [hdata i, hdata (i + 1)]
  show List.Lex (· < ·) _ _
  apply lex_append_left_of_lex
  exact lex_append_of_eqlen _ _ (pad2_lt_succ i hi)
    (by rw [pad2_length_two i (by omega), pad2_length_two (i + 1) (by omega)])

/-- Counterexample to claim C5 as stated: the padding is fixed at two digits
(`{i+1:02d}` never widens), so at 100 chunks the index-99 file
`audio_part100.mp3` sorts lexically before the index-98 file
`audio_part99.mp3`, and the chronological list of 100 names is not sorted —
lexical order no longer equals chunk-index order once the count exceeds 99. -/
theorem filename_order_cex :
    output_filename "audio" 99 < output_filename "audio" 98 ∧
    ¬ List.Sorted (· < ·) ((List.range 100).map (output_filename "audio")) := by
  have h1 : output_filename "audio" 99 < output_filename "audio" 98 :=
    String.lt_iff_toList_lt.mpr (by decide)
  refine ⟨h1, fun hs => ?_⟩
  have h2 : List.Sublist [98, 99] (List.range 100) := by
    have h3 : List.range 100 = List.range 98 ++ [98, 99] := by
      rw [List.range_succ, List.range_succ]
      simp
    rw [h3]
    exact List.sublist_append_right _ _
  have hsub : List.Sublist [output_filename "audio" 98, output_filename "audio" 99]
      ((List.range 100).map (output_filename "audio")) := by
    simpa using List.Sublist.map (output_filename "audio") h2
  have h4 : output_filename "audio" 98 < output_filename "audio" 99 :=
    List.pairwise_iff_forall_sublist.mp hs hsub
  exact lt_irrefl _ (lt_trans h1 h4)

/-- Claim C5 as amended: the chunk index in a filename is zero-padded to
exactly two digits and the width never expands, so the list of output
filenames in chunk order is lexically sorted for every chunk count `N ≤ 99`
(and, per the counterexample, not beyond). -/
theorem filenames_sorted_below_100 (stem : String) (N : Nat) (hN : N ≤ 99) :
    List.Sorted (· < ·) ((List.range N).map (output_filename stem)) := by
  have hchain : List.Chain' (· < ·) ((List.range N).map (output_filename stem)) := by
    rw [List.chain'_map]
    cases N with
    | zero => exact List.chain'_nil
    | succ n =>
      refine (List.chain'_range_succ _ n).mpr ?_
      intro m hm
      exact output_filename_lt_succ stem m (by omega)
  exact List.chain'_iff_pairwise.mp hchain

/-- C5 (amended) at the boundary input: the 99 chunk filenames are lexically
sorted in chunk order. -/
theorem filenames_sorted_below_100_w :
    List.Sorted (· < ·) ((List.range 99).map (output_filename "audio")) :=
  filenames_sorted_below_100 "audio" 99 (by decide)
